import Mathlib

/-
Verification development for the godotdoc GDScript documentation parser
(src/parser.rs, src/main.rs). The Rust source is shallowly embedded below:
each Rust function becomes a Lean definition with the same name, operating
on `String`/`List Char` with character positions in place of Rust byte
offsets (all inputs of interest are ASCII, where the two coincide), and
`Except String` in place of `Result<_, String>`. Input files are modelled
as the list of their physical lines, replacing the `FileIterator` over a
`BufReader`. Rust `Vec` stacks are Lean lists with the head as the top of
the stack (push = cons, pop = head, `iter().rev()` = head-to-tail order).
Error messages keep the Rust texts up to the interpolated parts.
-/

namespace Godotdoc

/-- `Settings` from main.rs restricted to the one field the parser reads. -/
structure Settings where
  show_prefixed : Bool
deriving Repr, DecidableEq

/-- `enum EntryType` (parser.rs). -/
inductive EntryType where
  | CLASS
  | SIGNAL
  | FUNC
  | VAR
  | CONST
  | EXPORT
  | ENUM
deriving Repr, DecidableEq

/-- `struct FunctionArgument` (parser.rs). -/
structure FunctionArgument where
  name : String
  value_type : Option String
  default_value : Option String
deriving Repr, DecidableEq

/-- `struct FunctionArgStruct` (parser.rs). -/
structure FunctionArgStruct where
  arguments : List FunctionArgument
  super_arguments : Option (List FunctionArgument)
  return_type : Option String
deriving Repr, DecidableEq

/-- `struct VariableArgStruct` (parser.rs). -/
structure VariableArgStruct where
  value_type : Option String
  assignment : Option String
  setter : Option String
  getter : Option String
deriving Repr, DecidableEq

/-- `struct ExportArgStruct` (parser.rs). -/
structure ExportArgStruct where
  value_type : Option String
  assignment : Option String
  options : List String
  setter : Option String
  getter : Option String
deriving Repr, DecidableEq

/-- `struct EnumValue` (parser.rs); Rust `isize` is modelled as `Int`. -/
structure EnumValue where
  name : String
  value : Int
  text : List String
deriving Repr, DecidableEq

mutual

/-- `enum SymbolArgs` (parser.rs); mutually inductive with `Symbol` and
`DocumentationEntry` because `ClassArgs` nests entry lists. -/
inductive SymbolArgs where
  | FunctionArgs (f : FunctionArgStruct)
  | VariableArgs (v : VariableArgStruct)
  | ExportArgs (e : ExportArgStruct)
  | EnumArgs (vs : List EnumValue)
  | ClassArgs (es : List DocumentationEntry)

/-- `struct Symbol` (parser.rs). -/
inductive Symbol where
  | mk (name : String) (arg : Option SymbolArgs) (text : List String)

/-- `struct DocumentationEntry` (parser.rs). -/
inductive DocumentationEntry where
  | mk (entry_type : EntryType) (symbols : List Symbol)

end

def Symbol.name : Symbol → String
  | .mk n _ _ => n

def Symbol.arg : Symbol → Option SymbolArgs
  | .mk _ a _ => a

def Symbol.text : Symbol → List String
  | .mk _ _ t => t

def DocumentationEntry.entry_type : DocumentationEntry → EntryType
  | .mk k _ => k

def DocumentationEntry.symbols : DocumentationEntry → List Symbol
  | .mk _ s => s

/-- `struct DocumentationData` (parser.rs). -/
structure DocumentationData where
  source_file : String
  entries : List DocumentationEntry

/-! ### String helpers mirroring the Rust `str` methods used by the parser. -/

/-- Rust `char::is_whitespace`, restricted to the ASCII whitespace. -/
def isWS (c : Char) : Bool :=
  c == ' ' || c == '\t' || c == '\n' || c == '\x0d' ||
  c == '\x0b' || c == '\x0c'

/-- Rust `str::trim_start` on a character list. -/
def ltrim (cs : List Char) : List Char := cs.dropWhile isWS

/-- Rust `str::trim_end` on a character list. -/
def rtrim (cs : List Char) : List Char := (ltrim cs.reverse).reverse

/-- Rust `str::trim`. -/
def trimStr (s : String) : String := ⟨rtrim (ltrim s.data)⟩

/-- Rust `str::trim_end`. -/
def trimEndStr (s : String) : String := ⟨rtrim s.data⟩

/-- Prefix test on character lists (Rust `str::starts_with`). -/
def listStartsWith : List Char → List Char → Bool
  | _, [] => true
  | [], _ :: _ => false
  | c :: cs, p :: ps => c == p && listStartsWith cs ps

/-- Rust `str::starts_with` with a string pattern. -/
def strStartsWith (s p : String) : Bool := listStartsWith s.data p.data

/-- The slice `s[..pos]` (character positions; ASCII byte positions agree). -/
def sliceTo (s : String) (pos : Nat) : String := ⟨s.data.take pos⟩

/-- The slice `s[pos..]`. -/
def sliceFrom (s : String) (pos : Nat) : String := ⟨s.data.drop pos⟩

/-- The slice `s[a..b]`. -/
def sliceBetween (s : String) (a b : Nat) : String := ⟨(s.data.take b).drop a⟩

/-- Rust `str::split` with a `char` pattern: every maximal separator-free
piece, including empty ones (`"".split(c)` is `[""]`). -/
def splitOnChar (sep : Char) : List Char → List (List Char)
  | [] => [[]]
  | c :: cs =>
    match splitOnChar sep cs with
    | [] => if c == sep then [[], []] else [[c]]
    | h :: t => if c == sep then [] :: h :: t else (c :: h) :: t

/-- `str::split` returning strings. -/
def splitStr (sep : Char) (s : String) : List String :=
  (splitOnChar sep s.data).map (fun l => ⟨l⟩)

/-- Rust `str::find` with a `char` pattern (plain, not the string-aware
scanner): position of the first occurrence. -/
def plainFindChar (s : String) (c : Char) : Option Nat :=
  s.data.findIdx? (fun x => x == c)

/-- Rust `str::find` with a `&str` pattern: position of the first substring
occurrence. -/
def plainFindSub (s : String) (pat : String) : Option Nat :=
  go s.data 0
where
  go : List Char → Nat → Option Nat
    | [], i => if pat.data.isEmpty then some i else none
    | c :: cs, i =>
      if listStartsWith (c :: cs) pat.data then some i
      else go cs (i + 1)

/-- Rust `str::parse::<isize>()`: an optional sign followed by one or more
ASCII digits, nothing else. -/
def parseIsize (s : String) : Option Int :=
  match s.data with
  | [] => none
  | '+' :: ds => (digits ds).map (fun n => (n : Int))
  | '-' :: ds => (digits ds).map (fun n => -(n : Int))
  | ds => (digits ds).map (fun n => (n : Int))
where
  digits : List Char → Option Nat
    | [] => none
    | ds =>
      if ds.all (fun c => c.isDigit) then
        some (ds.foldl (fun a c => a * 10 + (c.toNat - 48)) 0)
      else none

/-- `get_indentation_level` (parser.rs): the number of leading tabs. -/
def get_indentation_level (s : String) : Nat :=
  (s.data.takeWhile (fun c => c == '\t')).length

/-! ### The bracket/string-aware scanner `find` (parser.rs lines 800-913). -/

/-- `enum MatchType` (parser.rs). -/
inductive MatchType where
  | FAILURE
  | MATCH
  | FINISHED

/-- The two `Matcher` implementations (parser.rs): a bare `char`, and
`StringMatcher` with its mutable `index` made explicit. -/
inductive Matcher where
  | charM (c : Char)
  | strM (index : Nat) (len : Nat) (chars : List Char)

/-- `Matcher::matches` for both implementations; the state update of
`StringMatcher` is returned alongside the `MatchType`. -/
def Matcher.matches : Matcher → Char → MatchType × Matcher
  | .charM t, c =>
    if c == t then (.FINISHED, .charM t) else (.FAILURE, .charM t)
  | .strM idx len pat, c =>
    if idx > len || !(pat.getD idx ' ' == c) then (.FAILURE, .strM 0 len pat)
    else if idx == len - 1 && pat.getD idx ' ' == c then
      (.FINISHED, .strM idx len pat)
    else (.MATCH, .strM (idx + 1) len pat)

/-- `Predicate::into_matcher` for `&str` (parser.rs `StringMatcher`
construction). -/
def strMatcher (p : String) : Matcher :=
  .strM 0 p.data.length p.data

/-- Result of the inner scanning loop of `find`: the target was found, the
matcher failed, or the line ended mid-match. -/
inductive ScanOut where
  | found
  | failed (m : Matcher)
  | exhausted (m : Matcher)

/-- The inner `while i + j < len` loop of `find` (parser.rs lines 876-887),
run from one start position over the remaining characters. -/
def scanFrom : Matcher → List Char → ScanOut
  | m, [] => .exhausted m
  | m, c :: cs =>
    match m.matches c with
    | (.FAILURE, m') => .failed m'
    | (.FINISHED, _) => .found
    | (.MATCH, m') => scanFrom m' cs

/-- The `match chars[i]` step of `find` (parser.rs lines 889-909): quote
flags and bracket bookkeeping. The bracket stack has its top at the head. -/
def procChar (filename : String) (lineno : Nat) (c : Char) (ss ds : Bool)
    (parens : List Char) : Except String (Bool × Bool × List Char) :=
  if c == '"' && !ss then .ok (ss, true, parens)
  else if c == '\'' && !ds then .ok (true, ds, parens)
  else if c == '(' || c == '[' || c == '{' then .ok (ss, ds, c :: parens)
  else if c == ')' then
    match parens with
    | '(' :: ps => .ok (ss, ds, ps)
    | _ :: _ => .error (mismatchMsg filename lineno)
    | [] => .error (extraMsg filename lineno ")")
  else if c == ']' then
    match parens with
    | '[' :: ps => .ok (ss, ds, ps)
    | _ :: _ => .error (mismatchMsg filename lineno)
    | [] => .error (extraMsg filename lineno "]")
  else if c == '}' then
    match parens with
    | '{' :: ps => .ok (ss, ds, ps)
    | _ :: _ => .error (mismatchMsg filename lineno)
    | [] => .error (extraMsg filename lineno (String.mk ['\x7d']))
  else .ok (ss, ds, parens)
where
  mismatchMsg (f : String) (n : Nat) : String :=
    "Failed to parse " ++ f ++ ", line " ++ toString n ++
    ": Closing parentheses does not match opening parentheses"
  extraMsg (f : String) (n : Nat) (b : String) : String :=
    "Failed to parse " ++ f ++ ", line " ++ toString n ++ ": extra " ++ b

/-- The outer `for i in 0..len` loop of `find` (parser.rs lines 874-910).
`i` is the current position, the list holds the characters from `i` on. -/
def findLoop (filename : String) (lineno : Nat) :
    List Char → Nat → Matcher → Bool → Bool → List Char →
    Except String (Option Nat × List Char)
  | [], _, _, _, _, parens => .ok (none, parens)
  | c :: rest, i, m, ss, ds, parens =>
    let afterScan : Matcher → Except String (Option Nat × List Char) :=
      fun m' =>
        match procChar filename lineno c ss ds parens with
        | .error e => .error e
        | .ok (ss', ds', parens') =>
          findLoop filename lineno rest (i + 1) m' ss' ds' parens'
    if !ss && !ds then
      match scanFrom m (c :: rest) with
      | .found => .ok (some i, parens)
      | .failed m' => afterScan m'
      | .exhausted m' => afterScan m'
    else afterScan m

/-- `find` (parser.rs lines 860-913): position of the first occurrence of the
target outside string literals, threading the bracket-nesting stack. -/
def find (filename : String) (lineno : Nat) (s : String) (m : Matcher)
    (parens : List Char) : Except String (Option Nat × List Char) :=
  findLoop filename lineno s.data 0 m false false parens

/-- `get_comment` (parser.rs lines 148-161). -/
def get_comment (filename : String) (lineno : Nat) (line : String)
    (parens : List Char) :
    Except String (String × Option String × List Char) :=
  match find filename lineno line (.charM '#') parens with
  | .error e => .error e
  | .ok (some pos, parens') =>
    .ok (trimEndStr (sliceTo line pos), some (trimStr (sliceFrom line (pos + 1))), parens')
  | .ok (none, parens') => .ok (line, none, parens')

/-! ### Assignment grammar (parser.rs lines 915-1059). -/

/-- Rust `Option::get_or_insert` followed by the Rust assignment of the
inserted value: keep an existing value, otherwise store the new one. -/
def getOrInsert (o : Option String) (v : String) : Option String :=
  match o with
  | some x => some x
  | none => some v

/-- The `setget` clause handling repeated verbatim in each arm of
`parse_assignment` (parser.rs): split on `,`, trim, and dispatch on the
slice pattern `["", get]` / `[set]` / `[set, ""]` / `[set, get]`. Returns
the updated `(setter, getter)`. -/
def applySetget (filename : String) (lineno : Nat) (line : String)
    (setgetText : String) (setter getter : Option String) :
    Except String (Option String × Option String) :=
  match (splitStr ',' setgetText).map trimStr with
  | [a, b] =>
    if a == "" then .ok (setter, getOrInsert getter b)
    else if b == "" then .ok (getOrInsert setter a, getter)
    else .ok (getOrInsert setter a, getOrInsert getter b)
  | [a] => .ok (getOrInsert setter a, getter)
  | _ =>
    .error ("Failed to parse " ++ filename ++ ", line " ++ toString lineno ++
      ": invalid syntax " ++ line)

/-- `parse_assignment` (parser.rs lines 915-1059). The `&mut` out-parameters
become the returned tuple `(name, value_type, assignment, setter, getter)`;
all start as `""`/`none` at every call site in parser.rs, and are threaded
here in that initial state. -/
def parse_assignment (filename : String) (lineno : Nat) (line : String)
    (_name : String) (value_type assignment setter getter : Option String) :
    Except String (String × Option String × Option String × Option String × Option String) :=
  match find filename lineno line (.charM '=') [] with
  | .error e => .error e
  | .ok (assignment_pos, _) =>
  match find filename lineno line (.charM ':') [] with
  | .error e => .error e
  | .ok (type_pos, _) =>
  match find filename lineno line (strMatcher " setget ") [] with
  | .error e => .error e
  | .ok (setget_pos, _) =>
  match assignment_pos, type_pos, setget_pos with
  | some apos, some tpos, some spos =>
    if tpos < apos && apos < spos then
      match applySetget filename lineno line (sliceFrom line (spos + 7)) setter getter with
      | .error e => .error e
      | .ok (setter', getter') =>
        .ok (trimStr (sliceTo line tpos),
             getOrInsert value_type (trimStr (sliceBetween line (tpos + 1) apos)),
             getOrInsert assignment (trimStr (sliceBetween line (apos + 1) spos)),
             setter', getter')
    else
      .error ("Failed to parse " ++ filename ++ ", line " ++ toString lineno ++
        ": invalid syntax " ++ line)
  | some apos, some tpos, none =>
    if tpos < apos then
      .ok (trimStr (sliceTo line tpos),
           getOrInsert value_type (trimStr (sliceBetween line (tpos + 1) apos)),
           getOrInsert assignment (trimStr (sliceFrom line (apos + 1))),
           setter, getter)
    else
      .error ("Failed to parse " ++ filename ++ ", line " ++ toString lineno ++
        ": invalid syntax " ++ line)
  | some apos, none, some spos =>
    if apos < spos then
      match applySetget filename lineno line (sliceFrom line (spos + 7)) setter getter with
      | .error e => .error e
      | .ok (setter', getter') =>
        .ok (trimStr (sliceTo line apos), value_type,
             getOrInsert assignment (trimStr (sliceBetween line (apos + 1) spos)),
             setter', getter')
    else
      .error ("Failed to parse " ++ filename ++ ", line " ++ toString lineno ++
        ": invalid syntax " ++ line)
  | some apos, none, none =>
    .ok (trimStr (sliceTo line apos), value_type,
         getOrInsert assignment (trimStr (sliceFrom line (apos + 1))),
         setter, getter)
  | none, some tpos, some spos =>
    if tpos < spos then
      match applySetget filename lineno line (sliceFrom line (spos + 7)) setter getter with
      | .error e => .error e
      | .ok (setter', getter') =>
        .ok (trimStr (sliceTo line tpos),
             getOrInsert value_type (trimStr (sliceBetween line (tpos + 1) spos)),
             assignment, setter', getter')
    else
      .error ("Failed to parse " ++ filename ++ ", line " ++ toString lineno ++
        ": invalid syntax " ++ line)
  | none, some tpos, none =>
    .ok (trimStr (sliceTo line tpos),
         getOrInsert value_type (trimStr (sliceFrom line (tpos + 1))),
         assignment, setter, getter)
  | none, none, some spos =>
    match applySetget filename lineno line (sliceFrom line (spos + 7)) setter getter with
    | .error e => .error e
    | .ok (setter', getter') =>
      .ok (trimStr (sliceTo line spos), value_type, assignment, setter', getter')
  | none, none, none =>
    .ok (trimStr line, value_type, assignment, setter, getter)

/-! ### Function-signature grammar (parser.rs lines 1061-1195). -/

/-- `enum SIDE` local to `parse_function` (parser.rs). -/
inductive SIDE where
  | Name
  | Type
  | Assignment
  | Invalid
deriving DecidableEq

/-- The mutable locals of the `parse_function` character loop. `depth` is an
`Int` because Rust decrements an `i32`-typed counter below zero on a stray
closing parenthesis. -/
structure FnScan where
  finished : Bool
  depth : Int
  parentheses_count : Nat
  side : SIDE
  last_char : Option Char
  current_argument_name : String
  current_argument_type : Option String
  current_argument_assignment : Option String
  name : String
  arguments : List FunctionArgument
  super_arguments : Option (List FunctionArgument)
  return_type : Option String

/-- The flush of one accumulated argument performed by the `')'` and `','`
arms of `parse_function`, dispatched on `parentheses_count`. -/
def fnFlush (line : String) (st : FnScan) : Except String FnScan :=
  match st.parentheses_count with
  | 0 =>
    .ok { st with
      arguments := st.arguments ++
        [⟨st.current_argument_name, st.current_argument_type, st.current_argument_assignment⟩],
      current_argument_name := "",
      current_argument_type := none,
      current_argument_assignment := none }
  | 1 =>
    .ok { st with
      super_arguments := some ((st.super_arguments.getD []) ++
        [⟨st.current_argument_name, st.current_argument_type, st.current_argument_assignment⟩]),
      current_argument_name := "",
      current_argument_type := none,
      current_argument_assignment := none }
  | _ => .error ("Invalid syntax: " ++ line)

/-- One iteration of the `for c in line.chars()` loop of `parse_function`,
with the match arms in source order. -/
def fnStep (line : String) (st : FnScan) (c : Char) : Except String FnScan :=
  let done : FnScan → Except String FnScan := fun s =>
    .ok { s with last_char := some c }
  if isWS c then done st
  else if st.finished then .error ("Invalid syntax: " ++ line)
  else if c == '(' then
    if st.parentheses_count < 2 then done { st with depth := st.depth + 1 }
    else .error ("Invalid syntax: " ++ line)
  else if c == ')' then
    let st := { st with depth := st.depth - 1 }
    match (if st.depth == 0 && !(st.current_argument_name == "") then
             fnFlush line st
           else .ok st) with
    | .error e => .error e
    | .ok st =>
      if st.depth == 0 then
        done { st with side := .Invalid,
                       parentheses_count := st.parentheses_count + 1 }
      else done st
  else if c == '.' && st.depth == 0 && st.name == "_init" &&
          st.parentheses_count == 1 then
    done { st with side := .Name }
  else if c == '.' && st.depth == 0 then .error ("Invalid syntax: " ++ line)
  else if c == ':' && st.depth == 0 then done { st with finished := true }
  else if c == ':' then
    done { st with side := .Type, current_argument_type := some "" }
  else if c == ',' then
    match fnFlush line st with
    | .error e => .error e
    | .ok st => done st
  else if c == '-' && st.depth == 0 then done st
  else if c == '>' then
    if st.last_char == some '-' then done { st with side := .Type }
    else .error ("Invalid syntax: " ++ line)
  else if c == '=' && st.depth == 1 && !(st.side == SIDE.Assignment) then
    done { st with side := .Assignment }
  else if st.depth == 0 && st.side == SIDE.Name then
    done { st with name := st.name.push c }
  else if st.depth == 0 && st.side == SIDE.Type then
    done { st with return_type := some ((st.return_type.getD "").push c) }
  else if st.side == SIDE.Name then
    done { st with current_argument_name := st.current_argument_name.push c }
  else if st.side == SIDE.Type then
    done { st with
      current_argument_type := st.current_argument_type.map (fun s => s.push c) }
  else if st.side == SIDE.Assignment then
    done { st with
      current_argument_assignment :=
        some ((st.current_argument_assignment.getD "").push c) }
  else .error ("Invalid syntax: " ++ line)

/-- The char-list fold of `parse_function`. -/
def fnLoop (line : String) : FnScan → List Char → Except String FnScan
  | st, [] => .ok st
  | st, c :: cs =>
    match fnStep line st c with
    | .error e => .error e
    | .ok st' => fnLoop line st' cs

/-- `parse_function` (parser.rs lines 1061-1195). The `&mut` out-parameters
(name, arguments, super-arguments, return type) become the returned tuple;
every call site passes them empty/`none`. -/
def parse_function (line : String) :
    Except String (String × List FunctionArgument × Option (List FunctionArgument) × Option String) :=
  match fnLoop line
      { finished := false, depth := 0, parentheses_count := 0, side := .Name,
        last_char := none, current_argument_name := "",
        current_argument_type := none, current_argument_assignment := none,
        name := "", arguments := [], super_arguments := none,
        return_type := none } line.data with
  | .error e => .error e
  | .ok st => .ok (st.name, st.arguments, st.super_arguments, st.return_type)

/-! ### Scope frames and the enum grammar (parser.rs lines 163-264). -/

/-- `struct ClassFrame` (parser.rs): the per-scope accumulator, one symbol
list per kind, each in declaration order. -/
structure ClassFrame where
  classes : List Symbol := []
  signals : List Symbol := []
  functions : List Symbol := []
  vars : List Symbol := []
  constants : List Symbol := []
  exports : List Symbol := []
  enums : List Symbol := []

/-- `struct EnumFrame` (parser.rs). -/
structure EnumFrame where
  last_value : Int := 0
  values : List EnumValue := []

/-- `enum Mode` (parser.rs): the parse-scope stack entries. The Rust
`(u32, Option<u32>)` indentation pair of `Mode::Class` is split into two
fields. -/
inductive Mode where
  | Normal (frame : ClassFrame)
  | Enum (name : String) (ef : EnumFrame)
  | Class (name : String) (old_indent : Nat) (indent : Option Nat)
      (frame : ClassFrame) (comments : List String)

/-- The inner constant search of `get_constant` over one frame's constants:
the first constant with the wanted name and a `VariableArgs` payload yields
its (optional) assignment text. -/
def lookupConst : List Symbol → String → Option (Option String)
  | [], _ => none
  | s :: rest, raw =>
    if s.name == raw then
      match s.arg with
      | some (SymbolArgs.VariableArgs v) => some v.assignment
      | _ => lookupConst rest raw
    else lookupConst rest raw

/-- `get_constant` (parser.rs lines 186-207): walk the open-scope stack from
the top (head) down; in `Class`/`Normal` frames return the first matching
constant's assignment — which Rust returns even when that assignment is
`None`, ending the search. -/
def get_constant : List Mode → String → Option String
  | [], _ => none
  | m :: rest, raw =>
    match m with
    | Mode.Class _ _ _ cf _ =>
      match lookupConst cf.constants raw with
      | some a => a
      | none => get_constant rest raw
    | Mode.Normal cf =>
      match lookupConst cf.constants raw with
      | some a => a
      | none => get_constant rest raw
    | Mode.Enum _ _ => get_constant rest raw

/-- One `for v in values.split(',')` iteration of `parse_enum`
(parser.rs lines 217-261), processing the element list left to right.
Returns the updated enum frame and comment buffer. -/
def parseEnumGo (settings : Settings) (stack : List Mode)
    (ov : Option Bool) :
    List String → EnumFrame → List String →
    Except String (EnumFrame × List String)
  | [], ef, cb => .ok (ef, cb)
  | v :: rest, ef, cb =>
    let parts := splitStr '=' v
    let name := trimStr (parts.headD "")
    if name == "" then parseEnumGo settings stack ov rest ef cb
    else
      let valueE : Except String Int :=
        match parts.get? 1 with
        | none => .ok ef.last_value
        | some x =>
          let raw := trimStr x
          match parseIsize raw with
          | some n => .ok n
          | none =>
            match get_constant stack raw with
            | some v0 =>
              match parseIsize v0 with
              | some n => .ok n
              | none =>
                .error ("Constant " ++ raw ++ " of value " ++ v0 ++
                  " is not a valid enum value")
            | none => .error (raw ++ " is not a valid enum value")
      match valueE with
      | .error e => .error e
      | .ok value =>
        let ef := { ef with last_value := value + 1 }
        if (!(strStartsWith name "_") || settings.show_prefixed) &&
            ov.getD true then
          parseEnumGo settings stack ov rest
            { ef with values := ef.values ++ [⟨name, value, cb⟩] } []
        else parseEnumGo settings stack ov rest ef cb

/-- `parse_enum` (parser.rs lines 209-264). `override_visibility` is only
read, so it is passed by value; the mutated enum frame and comment buffer
are returned. -/
def parse_enum (settings : Settings) (stack : List Mode) (values : String)
    (ef : EnumFrame) (ov : Option Bool) (cb : List String) :
    Except String (EnumFrame × List String) :=
  parseEnumGo settings stack ov (splitStr ',' values) ef cb

/-- `add_entries` (parser.rs lines 529-572): flush a frame into entries,
one per non-empty kind, in the fixed push order. -/
def add_entries (frame : ClassFrame) : List DocumentationEntry :=
  (if frame.classes.isEmpty then [] else [.mk .CLASS frame.classes])
  ++ (if frame.enums.isEmpty then [] else [.mk .ENUM frame.enums])
  ++ (if frame.signals.isEmpty then [] else [.mk .SIGNAL frame.signals])
  ++ (if frame.exports.isEmpty then [] else [.mk .EXPORT frame.exports])
  ++ (if frame.constants.isEmpty then [] else [.mk .CONST frame.constants])
  ++ (if frame.functions.isEmpty then [] else [.mk .FUNC frame.functions])
  ++ (if frame.vars.isEmpty then [] else [.mk .VAR frame.vars])

/-! ### `parse_class_content` (parser.rs lines 574-798). Each `else if`
branch of the Rust keyword chain is transcribed as its own definition and
`parse_class_content` is the dispatching chain; the tuple returned is
(optional new scope to open, updated frame, updated comment buffer).
`override_visibility` is read but never written. -/

/-- The `class ` branch (parser.rs lines 585-595): note the visibility test
reads only the name rule, never `override_visibility`. -/
def pccClass (line : String) (indent : Nat) (frame : ClassFrame)
    (cb : List String) (settings : Settings) :
    Option Mode × ClassFrame × List String :=
  let name := trimStr ((splitStr ':' (sliceFrom line 5)).headD "")
  if !(strStartsWith name "_") || settings.show_prefixed then
    (some (Mode.Class name indent none {} cb), frame, [])
  else (none, frame, cb)

/-- The `signal ` branch (parser.rs lines 596-605). -/
def pccSignal (line : String) (frame : ClassFrame) (cb : List String)
    (settings : Settings) (ov : Option Bool) :
    Option Mode × ClassFrame × List String :=
  let name := trimStr (sliceFrom line 6)
  if (!(strStartsWith name "_") || settings.show_prefixed) && ov.getD true then
    (none, { frame with signals := frame.signals ++ [.mk name none cb] }, [])
  else (none, frame, cb)

/-- The `func ` branch (parser.rs lines 606-631). -/
def pccFunc (line : String) (frame : ClassFrame) (cb : List String)
    (settings : Settings) (ov : Option Bool) :
    Except String (Option Mode × ClassFrame × List String) :=
  match parse_function (sliceFrom line 4) with
  | .error e => .error e
  | .ok (name, arguments, super_arguments, return_type) =>
    if (!(strStartsWith name "_") || settings.show_prefixed) && ov.getD true then
      .ok (none,
        { frame with functions := frame.functions ++
          [.mk name (some (.FunctionArgs ⟨arguments, super_arguments, return_type⟩)) cb] },
        [])
    else .ok (none, frame, cb)

/-- The `var ` branch (parser.rs lines 632-661). -/
def pccVar (filename : String) (lineno : Nat) (line : String)
    (frame : ClassFrame) (cb : List String) (settings : Settings)
    (ov : Option Bool) :
    Except String (Option Mode × ClassFrame × List String) :=
  match parse_assignment filename lineno (sliceFrom line 4) "" none none none none with
  | .error e => .error e
  | .ok (name, value_type, assignment, setter, getter) =>
    if (!(strStartsWith name "_") || settings.show_prefixed) && ov.getD true then
      .ok (none,
        { frame with vars := frame.vars ++
          [.mk name (some (.VariableArgs ⟨value_type, assignment, setter, getter⟩)) cb] },
        [])
    else .ok (none, frame, cb)

/-- The `const ` branch (parser.rs lines 662-691). -/
def pccConst (filename : String) (lineno : Nat) (line : String)
    (frame : ClassFrame) (cb : List String) (settings : Settings)
    (ov : Option Bool) :
    Except String (Option Mode × ClassFrame × List String) :=
  match parse_assignment filename lineno (sliceFrom line 6) "" none none none none with
  | .error e => .error e
  | .ok (name, value_type, assignment, setter, getter) =>
    if (!(strStartsWith name "_") || settings.show_prefixed) && ov.getD true then
      .ok (none,
        { frame with constants := frame.constants ++
          [.mk name (some (.VariableArgs ⟨value_type, assignment, setter, getter⟩)) cb] },
        [])
    else .ok (none, frame, cb)

/-- The parenthesised export-hint extraction of the `export` branch
(parser.rs lines 693-715). -/
def exportHint (line : String) (pos : Nat) :
    Except String (Option (String × List String)) :=
  match plainFindChar line '(', plainFindChar line ')' with
  | some o, some c =>
    if o < c && c < pos then
      let args := (splitStr ',' (sliceBetween line (o + 1) c)).map trimStr
      .ok (some (args.headD "", args.tail))
    else if o > pos && c > pos then .ok none
    else .error ("Invalid syntax: " ++ line)
  | some x, none =>
    if x > pos then .ok none else .error ("Invalid syntax: " ++ line)
  | none, some x =>
    if x > pos then .ok none else .error ("Invalid syntax: " ++ line)
  | none, none => .ok none

/-- The `export` branch (parser.rs lines 692-754). -/
def pccExport (filename : String) (lineno : Nat) (line : String)
    (frame : ClassFrame) (cb : List String) (settings : Settings)
    (ov : Option Bool) :
    Except String (Option Mode × ClassFrame × List String) :=
  match plainFindSub line " var " with
  | none => .error ("Invalid syntax: " ++ line)
  | some pos =>
    match exportHint line pos with
    | .error e => .error e
    | .ok export_type =>
      match parse_assignment filename lineno (sliceFrom line (pos + 5)) "" none none none none with
      | .error e => .error e
      | .ok (name, value_type, assignment, setter, getter) =>
        if (strStartsWith name "_" && !settings.show_prefixed) || !ov.getD true then
          .ok (none, frame, cb)
        else
          let et := match export_type with
            | some (x, y) => (some x, y)
            | none => (none, [])
          .ok (none,
            { frame with exports := frame.exports ++
              [.mk name (some (.ExportArgs
                ⟨et.1.or value_type, assignment, et.2, setter, getter⟩)) cb] },
            [])

/-- The `enum` branch (parser.rs lines 755-795). -/
def pccEnum (line : String) (frame : ClassFrame) (cb : List String)
    (settings : Settings) (ov : Option Bool) (parsing_mode : List Mode) :
    Except String (Option Mode × ClassFrame × List String) :=
  match plainFindChar line '{' with
  | none => .error ("Invalid Syntax: " ++ line)
  | some pos =>
    let enum_name := trimStr (sliceBetween line 5 pos)
    if (strStartsWith enum_name "_" && !settings.show_prefixed) || !ov.getD true then
      .ok (none, frame, cb)
    else
      let endPos := plainFindChar line '}'
      let slice := match endPos with
        | some x => sliceBetween line (pos + 1) x
        | none => sliceFrom line (pos + 1)
      match parse_enum settings parsing_mode slice {} ov cb with
      | .error e => .error e
      | .ok (enum_frame, cb') =>
        match endPos with
        | some _ =>
          .ok (none,
            { frame with enums := frame.enums ++
              [.mk enum_name (some (.EnumArgs enum_frame.values)) cb'] },
            [])
        | none => .ok (some (Mode.Enum enum_name enum_frame), frame, cb')

/-- `parse_class_content` (parser.rs lines 574-798): the keyword dispatch
chain over the branch definitions above. -/
def parse_class_content (filename : String) (lineno : Nat) (line : String)
    (indent : Nat) (frame : ClassFrame) (cb : List String)
    (settings : Settings) (ov : Option Bool) (parsing_mode : List Mode) :
    Except String (Option Mode × ClassFrame × List String) :=
  if strStartsWith line "class " then .ok (pccClass line indent frame cb settings)
  else if strStartsWith line "signal " then .ok (pccSignal line frame cb settings ov)
  else if strStartsWith line "func " then pccFunc line frame cb settings ov
  else if strStartsWith line "var " then pccVar filename lineno line frame cb settings ov
  else if strStartsWith line "const " then pccConst filename lineno line frame cb settings ov
  else if strStartsWith line "export" then pccExport filename lineno line frame cb settings ov
  else if strStartsWith line "enum" then pccEnum line frame cb settings ov parsing_mode
  else .ok (none, frame, cb)

/-! ### `parse_line` (parser.rs lines 266-398). -/

/-- Push a completed class symbol onto the frame of the new top-of-stack
mode, as the dedent arm and the end-of-input loop do via `stack.last_mut()`.
Rust panics on an `Enum` top or an empty stack; the panic is modelled as an
error result. -/
def pushClassSym (name : String) (entries : List DocumentationEntry)
    (comments : List String) : List Mode → Except String (List Mode)
  | Mode.Normal f :: rest =>
    .ok (Mode.Normal
      { f with classes := f.classes ++ [.mk name (some (.ClassArgs entries)) comments] } :: rest)
  | Mode.Class n oi i f c :: rest =>
    .ok (Mode.Class n oi i
      { f with classes := f.classes ++ [.mk name (some (.ClassArgs entries)) comments] }
      c :: rest)
  | Mode.Enum _ _ :: _ =>
    .error "panic: Unexpected Enum value after completed class"
  | [] => .error "panic: Unexpected end of parsing_mode stack"

/-- Push a completed enum symbol onto the frame of the new top-of-stack
mode; panics modelled as errors, as in `pushClassSym`. -/
def pushEnumSym (name : String) (values : List EnumValue)
    (comments : List String) : List Mode → Except String (List Mode)
  | Mode.Normal f :: rest =>
    .ok (Mode.Normal
      { f with enums := f.enums ++ [.mk name (some (.EnumArgs values)) comments] } :: rest)
  | Mode.Class n oi i f c :: rest =>
    .ok (Mode.Class n oi i
      { f with enums := f.enums ++ [.mk name (some (.EnumArgs values)) comments] }
      c :: rest)
  | Mode.Enum _ _ :: _ =>
    .error "panic: Unexpected Enum value after completed enum"
  | [] => .error "panic: Unexpected end of parsing_mode stack"

/-- The body of `parse_line` (parser.rs lines 266-398), with fuel bounding
the dedent-reprocessing recursion; every recursive call pops one element of
the stack, so `parse_line` supplies `stack.length + 1` fuel and the fuel
branch is unreachable from it. Dispatches one logical line against the
current mode (already popped off the stack, as at the Rust call site) and
returns the updated stack and comment buffer. On a dedent the same line is
reprocessed against the parent scope. When a `Class` scope sees a line
indented deeper than its established body indent, the Rust `if`/`else if`
chain falls through and the popped mode is dropped. -/
def parse_line_go (filename : String) (lineno : Nat) (settings : Settings) :
    Nat → Mode → List Mode → String → Option Bool → List String → Nat →
    Except String (List Mode × List String)
  | 0, _, _, _, _, _, _ => .error "internal: out of fuel"
  | _ + 1, Mode.Enum name ef, stack, line, ov, cb, _lvl =>
    let endPos := plainFindChar line '}'
    let slice := match endPos with
      | some x => sliceTo line x
      | none => line
    match parse_enum settings stack slice ef ov cb with
    | .error e => .error e
    | .ok (ef', cb') =>
      match endPos with
      | some _ =>
        match pushEnumSym name ef'.values cb' stack with
        | .error e => .error e
        | .ok stack' => .ok (stack', [])
      | none => .ok (Mode.Enum name ef' :: stack, cb')
  | fuel + 1, Mode.Class name old_indent indentOpt frame comments, stack, line, ov, cb, lvl =>
    let indentE : Except String Nat := match indentOpt with
      | none =>
        if lvl > old_indent then .ok lvl
        else .error ("Failed to parse " ++ filename ++ ", line " ++
          toString lineno ++ ": Indented block expected")
      | some i => .ok i
    match indentE with
    | .error e => .error e
    | .ok indent =>
      if lvl == indent then
        match parse_class_content filename lineno (trimStr line) lvl frame cb
            settings ov stack with
        | .error e => .error e
        | .ok (newMode, frame', cb') =>
          let stack' := Mode.Class name old_indent (some indent) frame' comments :: stack
          match newMode with
          | some nf => .ok (nf :: stack', cb')
          | none => .ok (stack', cb')
      else if lvl < indent then
        let entries := add_entries frame
        let sym : Symbol := .mk name (some (.ClassArgs entries)) comments
        match stack with
        | Mode.Normal f :: rest =>
          parse_line_go filename lineno settings fuel
            (Mode.Normal { f with classes := f.classes ++ [sym] })
            rest line ov cb lvl
        | Mode.Class n oi i f c :: rest =>
          parse_line_go filename lineno settings fuel
            (Mode.Class n oi i { f with classes := f.classes ++ [sym] } c)
            rest line ov cb lvl
        | Mode.Enum _ _ :: _ =>
          .error "panic: Unexpected Enum value after completed class"
        | [] => .error "panic: Unexpected end of parsing_mode stack"
      else .ok (stack, cb)
  | _ + 1, Mode.Normal frame, stack, line, ov, cb, lvl =>
    match parse_class_content filename lineno line lvl frame cb settings ov stack with
    | .error e => .error e
    | .ok (newMode, frame', cb') =>
      let stack' := Mode.Normal frame' :: stack
      match newMode with
      | some nf => .ok (nf :: stack', cb')
      | none => .ok (stack', cb')

/-- `parse_line` (parser.rs lines 266-398): `parse_line_go` with enough fuel
for the deepest possible dedent cascade. -/
def parse_line (filename : String) (lineno : Nat) (settings : Settings)
    (mode : Mode) (stack : List Mode) (line : String) (ov : Option Bool)
    (cb : List String) (lvl : Nat) :
    Except String (List Mode × List String) :=
  parse_line_go filename lineno settings (stack.length + 1) mode stack line ov cb lvl

/-! ### `parse_file` (parser.rs lines 400-527). -/

/-- The trailing-comment handling of the assembler (parser.rs lines 435-444):
update the one-shot visibility override on the literal `[Show]`/`[Hide]`
texts and push every comment except `warning-ignore:` ones into the
buffer. -/
def processComment (ov : Option Bool) (cb : List String) (comment : String) :
    Option Bool × List String :=
  let ov' := if comment == "[Show]" then some true
             else if comment == "[Hide]" then some false
             else ov
  if strStartsWith comment "warning-ignore:" then (ov', cb)
  else (ov', cb ++ [comment])

/-- The logical-line assembly loop of `parse_file` (parser.rs lines 416-456):
the backslash-continuation `while` (the partial line ends in `\` and holds
no `#`: strip the `\`, append the next physical line trimmed, and re-check),
comment stripping, and implicit continuation while the shared bracket stack
still holds a `(`. Every recursive call consumes one physical line. Returns
the assembled line, the bracket stack, the visibility override, the comment
buffer, the line count and the remaining input. -/
def assembleGo (filename : String) : List String → Nat → String → String →
    List Char → Option Bool → List String →
    Except String (String × List Char × Option Bool × List String × Nat × List String)
  | lines, lineno, current, acc, parens, ov, cb =>
    if current.data.getLast? == some '\\' && !current.data.contains '#' then
      match lines with
      | [] => .error "Unexpected eof, expected newline after \\"
      | l :: rest =>
        assembleGo filename rest (lineno + 1)
          (⟨current.data.dropLast⟩ ++ trimStr l) acc parens ov cb
    else
      match get_comment filename lineno current parens with
      | .error e => .error e
      | .ok (code, commentOpt, parens') =>
        let (ov', cb') := match commentOpt with
          | some comment => processComment ov cb comment
          | none => (ov, cb)
        let acc' := acc ++ code
        if parens'.contains '(' then
          match lines with
          | [] => .error "Unexpected eof, mismatched parentheses"
          | l :: rest =>
            assembleGo filename rest (lineno + 1) (trimStr l) acc' parens' ov' cb'
        else .ok (acc', parens', ov', cb', lineno, lines)

/-- A symbol produced by closing a scope at end of input, waiting to be
appended to the next-lower frame's `classes` or `enums` list. Carrying it
explicitly makes the Rust pop-and-`last_mut` loop a structural fold. -/
inductive Pending where
  | nothing
  | cls (s : Symbol)
  | enm (s : Symbol)

/-- Append a pending closed-scope symbol to a frame, as the Rust loop's
`frame.classes.push` / `frame.enums.push` on `last_mut` does. -/
def applyPending (p : Pending) (f : ClassFrame) : ClassFrame :=
  match p with
  | .nothing => f
  | .cls s => { f with classes := f.classes ++ [s] }
  | .enm s => { f with enums := f.enums ++ [s] }

/-- Which Rust panic message an `Enum` or missing frame below a closed scope
triggers. -/
def pendingPanic (p : Pending) : String :=
  match p with
  | .cls _ => "panic: Unexpected Enum value after completed class"
  | _ => "panic: Unexpected Enum value after completed enum"

/-- The end-of-input loop of `parse_file` (parser.rs lines 476-524): close
every still-open scope innermost first; each closed `Class`/`Enum` becomes
a symbol pushed onto the frame below (`Pending`), and the bottom `Normal`
frame becomes the file's data. Rust's panics (an `Enum` below a closed
scope, or an exhausted stack) are modelled as errors. -/
def closeAll (filename : String) : Pending → List String → List Mode →
    Except String DocumentationData
  | p, _, [] =>
    match p with
    | .nothing => .error "panic: parse_file ran out of modes"
    | _ => .error "panic: Unexpected end of parsing_mode stack"
  | p, cb, Mode.Enum name ef :: rest =>
    match p with
    | .nothing =>
      closeAll filename (.enm (.mk name (some (.EnumArgs ef.values)) cb)) [] rest
    | _ => .error (pendingPanic p)
  | p, cb, Mode.Class name _ _ frame text :: rest =>
    let frame := applyPending p frame
    closeAll filename
      (.cls (.mk name (some (.ClassArgs (add_entries frame))) text)) cb rest
  | p, _, Mode.Normal frame :: _rest =>
    .ok ⟨filename, add_entries (applyPending p frame)⟩

/-- The outer `while let Some(..) = lines.next()` loop of `parse_file`
(parser.rs lines 412-474), with fuel bounding the number of iterations;
`parse_file` supplies more fuel than there are input lines, and every
iteration consumes at least one line, so the fuel branch is unreachable
from `parse_file`. -/
def parseLoop (filename : String) (settings : Settings) :
    Nat → List String → Nat → List Mode → List Char → Option Bool →
    List String → Except String DocumentationData
  | 0, _, _, _, _, _, _ => .error "internal: out of fuel"
  | _ + 1, [], _, stack, _, _, cb => closeAll filename .nothing cb stack
  | fuel + 1, l :: rest, count, stack, parens, ov, cb =>
    match assembleGo filename rest (count + 1) l "" parens ov cb with
    | .error e => .error e
    | .ok (full_line, parens', ov', cb', count', rest') =>
      let lvl := get_indentation_level full_line
      if trimStr full_line == "" then
        parseLoop filename settings fuel rest' count' stack parens' ov' cb'
      else
        match stack with
        | [] => .error "panic: parse_file ran out of modes"
        | m :: stackRest =>
          match parse_line filename count' settings m stackRest full_line ov' cb' lvl with
          | .error e => .error e
          | .ok (stack', _cb2) =>
            parseLoop filename settings fuel rest' count' stack' parens' none []

/-- `parse_file` (parser.rs lines 400-527): parse a file, given as its list
of physical lines, into its documentation data. -/
def parse_file (filename : String) (lines : List String)
    (settings : Settings) : Except String DocumentationData :=
  parseLoop filename settings (lines.length + 1) lines 0
    [Mode.Normal {}] [] none []

/-! ### Entry-shape predicates for the fixed emission order of `add_entries`. -/

/-- The fixed kind order in which `add_entries` emits entries. -/
def kindOrder : List EntryType :=
  [.CLASS, .ENUM, .SIGNAL, .EXPORT, .CONST, .FUNC, .VAR]

/-- The symbol list a frame accumulates for a given kind. -/
def frameList (f : ClassFrame) : EntryType → List Symbol
  | .CLASS => f.classes
  | .ENUM => f.enums
  | .SIGNAL => f.signals
  | .EXPORT => f.exports
  | .CONST => f.constants
  | .FUNC => f.functions
  | .VAR => f.vars

/-- Well-formedness of an emitted entry list, recursively through nested
class payloads: the kinds form a subsequence of the fixed `kindOrder` (so
each kind occurs at most once, in the fixed order), no entry has an empty
symbol list, and every nested `ClassArgs` entry list is well-formed too. -/
inductive EntriesWF : List DocumentationEntry → Prop where
  | mk : ∀ es : List DocumentationEntry,
      (es.map DocumentationEntry.entry_type).Sublist kindOrder →
      (∀ e ∈ es, e.symbols ≠ []) →
      (∀ e ∈ es, ∀ s ∈ e.symbols, ∀ es2,
        s.arg = some (SymbolArgs.ClassArgs es2) → EntriesWF es2) →
      EntriesWF es

/-- A symbol is well-formed when its class payload, if any, is. -/
def SymWF (s : Symbol) : Prop :=
  ∀ es2, s.arg = some (SymbolArgs.ClassArgs es2) → EntriesWF es2

/-- All symbols of a list are well-formed. -/
def SymsWF (l : List Symbol) : Prop := ∀ s ∈ l, SymWF s

/-- All of a frame's accumulated symbols are well-formed. -/
def FrameWF (f : ClassFrame) : Prop := ∀ k, SymsWF (frameList f k)

/-- Well-formedness of a parse mode: its frame, when it has one, is
well-formed. -/
def ModeWF : Mode → Prop
  | Mode.Normal f => FrameWF f
  | Mode.Class _ _ _ f _ => FrameWF f
  | Mode.Enum _ _ => True

/-- Well-formedness of the whole scope stack. -/
def StackWF (stack : List Mode) : Prop := ∀ m ∈ stack, ModeWF m

/-- Well-formedness of a pending closed-scope symbol. -/
def PendingWF : Pending → Prop
  | .nothing => True
  | .cls s => SymWF s
  | .enm s => SymWF s

/-- The result shape every `parse_class_content` branch must satisfy to
preserve the stack invariant: the returned frame is well-formed and so is
any newly opened scope. -/
def PccWF (res : Option Mode × ClassFrame × List String) : Prop :=
  FrameWF res.2.1 ∧ ∀ m, res.1 = some m → ModeWF m

/-! ### Helper lemmas. -/

theorem string_eta (s : String) : String.mk s.data = s := rfl

theorem splitOnChar_of_no_sep (sep : Char) :
    ∀ l : List Char, l.contains sep = false → splitOnChar sep l = [l] := by
  intro l
  induction l with
  | nil => intro _; rfl
  | cons c cs ih =>
    intro h
    simp only [List.contains_cons, Bool.or_eq_false_iff] at h
    rw [splitOnChar, ih h.2]
    have hcs : (c == sep) = false := by
      rcases h with ⟨h1, -⟩
      rw [beq_eq_false_iff_ne] at h1 ⊢
      exact fun e => h1 e.symm
    simp [hcs]

theorem data_all_ws_of_trim_empty (v : String) (h : trimStr v = "") :
    ∀ c ∈ v.data, isWS c = true := by
  have hd : rtrim (ltrim v.data) = [] := congrArg String.data h
  unfold rtrim at hd
  have h1 : ltrim (ltrim v.data).reverse = [] := by
    simpa using congrArg List.reverse hd
  unfold ltrim at h1
  have h2 : ∀ c ∈ (ltrim v.data).reverse, isWS c = true :=
    List.dropWhile_eq_nil_iff.1 h1
  have h3 : ∀ c ∈ ltrim v.data, isWS c = true := by
    intro c hc
    exact h2 c (List.mem_reverse.2 hc)
  intro c hc
  rw [← List.takeWhile_append_dropWhile (p := isWS) (l := v.data)] at hc
  rcases List.mem_append.1 hc with h4 | h4
  · exact List.mem_takeWhile_imp h4
  · exact h3 c h4

theorem no_eq_of_trim_empty (v : String) (h : trimStr v = "") :
    v.data.contains '=' = false := by
  by_contra hc
  rw [Bool.not_eq_false] at hc
  obtain ⟨c, hm, he⟩ := List.contains_iff_exists_mem_beq.1 hc
  have := data_all_ws_of_trim_empty v h c hm
  rw [show c = '=' from (show ('=' : Char) = c by simpa using he).symm] at this
  simp [isWS] at this

theorem SymsWF_append {l : List Symbol} {s : Symbol}
    (hl : SymsWF l) (hs : SymWF s) : SymsWF (l ++ [s]) := by
  intro x hx
  rcases List.mem_append.1 hx with h | h
  · exact hl x h
  · rw [List.mem_singleton.1 h]; exact hs

theorem FrameWF_empty : FrameWF {} := by
  intro k s hs
  cases k <;> simp [frameList] at hs

theorem chunk_sublist (b : Bool) (k : EntryType) (l : List Symbol) :
    ((if b then [] else [DocumentationEntry.mk k l]).map
      DocumentationEntry.entry_type).Sublist [k] := by
  split <;> simp [DocumentationEntry.entry_type]

theorem add_entries_kinds_sublist (f : ClassFrame) :
    ((add_entries f).map DocumentationEntry.entry_type).Sublist kindOrder := by
  show ((((((((if f.classes.isEmpty then []
      else [DocumentationEntry.mk EntryType.CLASS f.classes])
    ++ (if f.enums.isEmpty then [] else [DocumentationEntry.mk EntryType.ENUM f.enums]))
    ++ (if f.signals.isEmpty then [] else [DocumentationEntry.mk EntryType.SIGNAL f.signals]))
    ++ (if f.exports.isEmpty then [] else [DocumentationEntry.mk EntryType.EXPORT f.exports]))
    ++ (if f.constants.isEmpty then [] else [DocumentationEntry.mk EntryType.CONST f.constants]))
    ++ (if f.functions.isEmpty then [] else [DocumentationEntry.mk EntryType.FUNC f.functions]))
    ++ (if f.vars.isEmpty then [] else [DocumentationEntry.mk EntryType.VAR f.vars])).map
      DocumentationEntry.entry_type).Sublist
    ([EntryType.CLASS] ++ [EntryType.ENUM] ++ [EntryType.SIGNAL] ++ [EntryType.EXPORT]
      ++ [EntryType.CONST] ++ [EntryType.FUNC] ++ [EntryType.VAR])
  simp only [List.map_append]
  exact ((((((chunk_sublist _ _ _).append (chunk_sublist _ _ _)).append
    (chunk_sublist _ _ _)).append (chunk_sublist _ _ _)).append
    (chunk_sublist _ _ _)).append (chunk_sublist _ _ _)).append (chunk_sublist _ _ _)

theorem mem_chunk {e : DocumentationEntry} {k : EntryType} {l : List Symbol}
    (h : e ∈ if l.isEmpty then ([] : List DocumentationEntry) else [.mk k l]) :
    e = .mk k l ∧ l ≠ [] := by
  split at h
  · simp at h
  · rename_i hc
    refine ⟨List.mem_singleton.1 h, ?_⟩
    intro hl
    simp [hl] at hc

theorem mem_add_entries {f : ClassFrame} {e : DocumentationEntry}
    (he : e ∈ add_entries f) :
    ∃ k, e = .mk k (frameList f k) ∧ frameList f k ≠ [] := by
  unfold add_entries at he
  simp only [List.mem_append] at he
  rcases he with ((((((h | h) | h) | h) | h) | h) | h)
  · exact ⟨.CLASS, mem_chunk h⟩
  · exact ⟨.ENUM, mem_chunk h⟩
  · exact ⟨.SIGNAL, mem_chunk h⟩
  · exact ⟨.EXPORT, mem_chunk h⟩
  · exact ⟨.CONST, mem_chunk h⟩
  · exact ⟨.FUNC, mem_chunk h⟩
  · exact ⟨.VAR, mem_chunk h⟩

theorem add_entries_wf {f : ClassFrame} (hf : FrameWF f) :
    EntriesWF (add_entries f) := by
  refine EntriesWF.mk _ (add_entries_kinds_sublist f) ?_ ?_
  · intro e he
    obtain ⟨k, rfl, hne⟩ := mem_add_entries he
    simpa [DocumentationEntry.symbols] using hne
  · intro e he s hs es2 harg
    obtain ⟨k, rfl, -⟩ := mem_add_entries he
    exact hf k s hs es2 harg

theorem FrameWF_push {f f' : ClassFrame} {s : Symbol}
    (hf : FrameWF f) (hs : SymWF s)
    (h : ∀ k, frameList f' k = frameList f k ∨ frameList f' k = frameList f k ++ [s]) :
    FrameWF f' := by
  intro k
  rcases h k with h' | h' <;> rw [h']
  · exact hf k
  · exact SymsWF_append (hf k) hs

theorem PccWF_noMode {f' : ClassFrame} {cb' : List String} (hf' : FrameWF f') :
    PccWF (none, f', cb') :=
  ⟨hf', fun m hm => by simp at hm⟩

theorem PccWF_mode {m0 : Mode} {f' : ClassFrame} {cb' : List String}
    (hf' : FrameWF f') (hm0 : ModeWF m0) : PccWF (some m0, f', cb') :=
  ⟨hf', fun m hm => by
    have hx : m0 = m := by simpa using hm
    exact hx ▸ hm0⟩

theorem SymWF_none (n : String) (t : List String) : SymWF (.mk n none t) :=
  fun _ h => by simp [Symbol.arg] at h

theorem SymWF_fnArgs (n : String) (x : FunctionArgStruct) (t : List String) :
    SymWF (.mk n (some (.FunctionArgs x)) t) :=
  fun _ h => by simp [Symbol.arg] at h

theorem SymWF_varArgs (n : String) (x : VariableArgStruct) (t : List String) :
    SymWF (.mk n (some (.VariableArgs x)) t) :=
  fun _ h => by simp [Symbol.arg] at h

theorem SymWF_expArgs (n : String) (x : ExportArgStruct) (t : List String) :
    SymWF (.mk n (some (.ExportArgs x)) t) :=
  fun _ h => by simp [Symbol.arg] at h

theorem SymWF_enumArgs (n : String) (x : List EnumValue) (t : List String) :
    SymWF (.mk n (some (.EnumArgs x)) t) :=
  fun _ h => by simp [Symbol.arg] at h

theorem pccClass_wf {line : String} {indent : Nat} {f : ClassFrame}
    {cb : List String} {settings : Settings} (hf : FrameWF f) :
    PccWF (pccClass line indent f cb settings) := by
  simp only [pccClass]
  split
  · exact PccWF_mode hf FrameWF_empty
  · exact PccWF_noMode hf

theorem pccSignal_wf {line : String} {f : ClassFrame} {cb : List String}
    {settings : Settings} {ov : Option Bool} (hf : FrameWF f) :
    PccWF (pccSignal line f cb settings ov) := by
  simp only [pccSignal]
  split
  · refine PccWF_noMode ?_
    intro k; cases k <;> first | exact hf EntryType.CLASS | exact hf EntryType.ENUM | exact hf EntryType.SIGNAL | exact hf EntryType.EXPORT | exact hf EntryType.CONST | exact hf EntryType.FUNC | exact hf EntryType.VAR | exact SymsWF_append (hf EntryType.SIGNAL) (SymWF_none _ _) | exact SymsWF_append (hf EntryType.FUNC) (SymWF_fnArgs _ _ _) | exact SymsWF_append (hf EntryType.VAR) (SymWF_varArgs _ _ _) | exact SymsWF_append (hf EntryType.CONST) (SymWF_varArgs _ _ _) | exact SymsWF_append (hf EntryType.EXPORT) (SymWF_expArgs _ _ _) | exact SymsWF_append (hf EntryType.ENUM) (SymWF_enumArgs _ _ _)
  · exact PccWF_noMode hf

theorem pccFunc_wf {line : String} {f : ClassFrame} {cb : List String}
    {settings : Settings} {ov : Option Bool} {res}
    (hf : FrameWF f) (h : pccFunc line f cb settings ov = .ok res) :
    PccWF res := by
  simp only [pccFunc] at h
  repeat' split at h
  all_goals try exact Except.noConfusion h
  all_goals cases h
  all_goals first
    | exact PccWF_noMode hf
    | exact PccWF_mode hf trivial
    | (refine PccWF_noMode ?_
       intro k
       cases k <;>
         first
           | exact hf EntryType.CLASS
           | exact hf EntryType.ENUM
           | exact hf EntryType.SIGNAL
           | exact hf EntryType.EXPORT
           | exact hf EntryType.CONST
           | exact hf EntryType.FUNC
           | exact hf EntryType.VAR
           | exact SymsWF_append (hf EntryType.SIGNAL) (SymWF_none _ _)
           | exact SymsWF_append (hf EntryType.FUNC) (SymWF_fnArgs _ _ _)
           | exact SymsWF_append (hf EntryType.VAR) (SymWF_varArgs _ _ _)
           | exact SymsWF_append (hf EntryType.CONST) (SymWF_varArgs _ _ _)
           | exact SymsWF_append (hf EntryType.EXPORT) (SymWF_expArgs _ _ _)
           | exact SymsWF_append (hf EntryType.ENUM) (SymWF_enumArgs _ _ _))

theorem pccVar_wf {filename : String} {lineno : Nat} {line : String}
    {f : ClassFrame} {cb : List String} {settings : Settings}
    {ov : Option Bool} {res}
    (hf : FrameWF f) (h : pccVar filename lineno line f cb settings ov = .ok res) :
    PccWF res := by
  simp only [pccVar] at h
  repeat' split at h
  all_goals try exact Except.noConfusion h
  all_goals cases h
  all_goals first
    | exact PccWF_noMode hf
    | exact PccWF_mode hf trivial
    | (refine PccWF_noMode ?_
       intro k
       cases k <;>
         first
           | exact hf EntryType.CLASS
           | exact hf EntryType.ENUM
           | exact hf EntryType.SIGNAL
           | exact hf EntryType.EXPORT
           | exact hf EntryType.CONST
           | exact hf EntryType.FUNC
           | exact hf EntryType.VAR
           | exact SymsWF_append (hf EntryType.SIGNAL) (SymWF_none _ _)
           | exact SymsWF_append (hf EntryType.FUNC) (SymWF_fnArgs _ _ _)
           | exact SymsWF_append (hf EntryType.VAR) (SymWF_varArgs _ _ _)
           | exact SymsWF_append (hf EntryType.CONST) (SymWF_varArgs _ _ _)
           | exact SymsWF_append (hf EntryType.EXPORT) (SymWF_expArgs _ _ _)
           | exact SymsWF_append (hf EntryType.ENUM) (SymWF_enumArgs _ _ _))

theorem pccConst_wf {filename : String} {lineno : Nat} {line : String}
    {f : ClassFrame} {cb : List String} {settings : Settings}
    {ov : Option Bool} {res}
    (hf : FrameWF f) (h : pccConst filename lineno line f cb settings ov = .ok res) :
    PccWF res := by
  simp only [pccConst] at h
  repeat' split at h
  all_goals try exact Except.noConfusion h
  all_goals cases h
  all_goals first
    | exact PccWF_noMode hf
    | exact PccWF_mode hf trivial
    | (refine PccWF_noMode ?_
       intro k
       cases k <;>
         first
           | exact hf EntryType.CLASS
           | exact hf EntryType.ENUM
           | exact hf EntryType.SIGNAL
           | exact hf EntryType.EXPORT
           | exact hf EntryType.CONST
           | exact hf EntryType.FUNC
           | exact hf EntryType.VAR
           | exact SymsWF_append (hf EntryType.SIGNAL) (SymWF_none _ _)
           | exact SymsWF_append (hf EntryType.FUNC) (SymWF_fnArgs _ _ _)
           | exact SymsWF_append (hf EntryType.VAR) (SymWF_varArgs _ _ _)
           | exact SymsWF_append (hf EntryType.CONST) (SymWF_varArgs _ _ _)
           | exact SymsWF_append (hf EntryType.EXPORT) (SymWF_expArgs _ _ _)
           | exact SymsWF_append (hf EntryType.ENUM) (SymWF_enumArgs _ _ _))

theorem pccExport_wf {filename : String} {lineno : Nat} {line : String}
    {f : ClassFrame} {cb : List String} {settings : Settings}
    {ov : Option Bool} {res}
    (hf : FrameWF f) (h : pccExport filename lineno line f cb settings ov = .ok res) :
    PccWF res := by
  simp only [pccExport] at h
  repeat' split at h
  all_goals try exact Except.noConfusion h
  all_goals cases h
  all_goals first
    | exact PccWF_noMode hf
    | exact PccWF_mode hf trivial
    | (refine PccWF_noMode ?_
       intro k
       cases k <;>
         first
           | exact hf EntryType.CLASS
           | exact hf EntryType.ENUM
           | exact hf EntryType.SIGNAL
           | exact hf EntryType.EXPORT
           | exact hf EntryType.CONST
           | exact hf EntryType.FUNC
           | exact hf EntryType.VAR
           | exact SymsWF_append (hf EntryType.SIGNAL) (SymWF_none _ _)
           | exact SymsWF_append (hf EntryType.FUNC) (SymWF_fnArgs _ _ _)
           | exact SymsWF_append (hf EntryType.VAR) (SymWF_varArgs _ _ _)
           | exact SymsWF_append (hf EntryType.CONST) (SymWF_varArgs _ _ _)
           | exact SymsWF_append (hf EntryType.EXPORT) (SymWF_expArgs _ _ _)
           | exact SymsWF_append (hf EntryType.ENUM) (SymWF_enumArgs _ _ _))

theorem pccEnum_wf {line : String} {f : ClassFrame} {cb : List String}
    {settings : Settings} {ov : Option Bool} {pm : List Mode} {res}
    (hf : FrameWF f) (h : pccEnum line f cb settings ov pm = .ok res) :
    PccWF res := by
  simp only [pccEnum] at h
  repeat' split at h
  all_goals try exact Except.noConfusion h
  all_goals cases h
  all_goals first
    | exact PccWF_noMode hf
    | exact PccWF_mode hf trivial
    | (refine PccWF_noMode ?_
       intro k
       cases k <;>
         first
           | exact hf EntryType.CLASS
           | exact hf EntryType.ENUM
           | exact hf EntryType.SIGNAL
           | exact hf EntryType.EXPORT
           | exact hf EntryType.CONST
           | exact hf EntryType.FUNC
           | exact hf EntryType.VAR
           | exact SymsWF_append (hf EntryType.SIGNAL) (SymWF_none _ _)
           | exact SymsWF_append (hf EntryType.FUNC) (SymWF_fnArgs _ _ _)
           | exact SymsWF_append (hf EntryType.VAR) (SymWF_varArgs _ _ _)
           | exact SymsWF_append (hf EntryType.CONST) (SymWF_varArgs _ _ _)
           | exact SymsWF_append (hf EntryType.EXPORT) (SymWF_expArgs _ _ _)
           | exact SymsWF_append (hf EntryType.ENUM) (SymWF_enumArgs _ _ _))

theorem parse_class_content_wf {filename : String} {lineno : Nat}
    {line : String} {indent : Nat} {f : ClassFrame} {cb : List String}
    {settings : Settings} {ov : Option Bool} {pm : List Mode}
    {res : Option Mode × ClassFrame × List String}
    (hf : FrameWF f)
    (h : parse_class_content filename lineno line indent f cb settings ov pm = .ok res) :
    PccWF res := by
  simp only [parse_class_content] at h
  repeat' split at h
  · cases h; exact pccClass_wf hf
  · cases h; exact pccSignal_wf hf
  · exact pccFunc_wf hf h
  · exact pccVar_wf hf h
  · exact pccConst_wf hf h
  · exact pccExport_wf hf h
  · exact pccEnum_wf hf h
  · cases h; exact PccWF_noMode hf

theorem StackWF_cons {m : Mode} {rest : List Mode}
    (hm : ModeWF m) (hs : StackWF rest) : StackWF (m :: rest) := by
  intro x hx
  rcases List.mem_cons.1 hx with h | h
  · exact h ▸ hm
  · exact hs x h

theorem StackWF_of_cons {m : Mode} {rest : List Mode}
    (h : StackWF (m :: rest)) : ModeWF m ∧ StackWF rest :=
  ⟨h m (List.mem_cons_self m rest), fun x hx => h x (List.mem_cons_of_mem m hx)⟩

theorem SymWF_classArgs {n : String} {es : List DocumentationEntry}
    {t : List String} (h : EntriesWF es) :
    SymWF (.mk n (some (.ClassArgs es)) t) := by
  intro es2 harg
  have hx : es = es2 := by simpa [Symbol.arg] using harg
  exact hx ▸ h

theorem FrameWF_push_enum {f : ClassFrame} {s : Symbol}
    (hf : FrameWF f) (hs : SymWF s) :
    FrameWF { f with enums := f.enums ++ [s] } := by
  refine FrameWF_push hf hs ?_
  intro k; cases k <;> simp [frameList]

theorem FrameWF_push_class {f : ClassFrame} {s : Symbol}
    (hf : FrameWF f) (hs : SymWF s) :
    FrameWF { f with classes := f.classes ++ [s] } := by
  refine FrameWF_push hf hs ?_
  intro k; cases k <;> simp [frameList]

theorem pushEnumSym_wf {name : String} {values : List EnumValue}
    {comments : List String} {stack stack' : List Mode}
    (hs : StackWF stack)
    (h : pushEnumSym name values comments stack = .ok stack') :
    StackWF stack' := by
  cases stack with
  | nil => exact Except.noConfusion h
  | cons top rest =>
    obtain ⟨hm, hrest⟩ := StackWF_of_cons hs
    cases top with
    | Normal f =>
      cases h
      exact StackWF_cons (FrameWF_push_enum hm (SymWF_enumArgs _ _ _)) hrest
    | Class n oi i f c =>
      cases h
      exact StackWF_cons (FrameWF_push_enum hm (SymWF_enumArgs _ _ _)) hrest
    | Enum n ef => exact Except.noConfusion h

theorem parse_line_go_wf (fn : String) (ln : Nat) (st : Settings) :
    ∀ (fuel : Nat) (mode : Mode) (stack : List Mode) (line : String)
      (ov : Option Bool) (cb : List String) (lvl : Nat)
      (res : List Mode × List String),
      ModeWF mode → StackWF stack →
      parse_line_go fn ln st fuel mode stack line ov cb lvl = .ok res →
      StackWF res.1 := by
  intro fuel
  induction fuel with
  | zero =>
    intro mode stack line ov cb lvl res hm hs h
    exact Except.noConfusion h
  | succ n ih =>
    intro mode stack line ov cb lvl res hm hs h
    cases mode with
    | Enum name ef =>
      simp only [parse_line_go] at h
      repeat' split at h
      all_goals try exact Except.noConfusion h
      all_goals cases h
      · rename_i heq
        exact pushEnumSym_wf hs heq
      · exact StackWF_cons trivial hs
    | Normal frame =>
      simp only [parse_line_go] at h
      repeat' split at h
      all_goals try exact Except.noConfusion h
      all_goals cases h
      · rename_i nf hnm
        obtain ⟨hfw, hmode⟩ := parse_class_content_wf hm hnm
        exact StackWF_cons (hmode _ rfl) (StackWF_cons hfw hs)
      · rename_i hnm
        obtain ⟨hfw, -⟩ := parse_class_content_wf hm hnm
        exact StackWF_cons hfw hs
    | Class name old_indent indentOpt frame comments =>
      simp only [parse_line_go] at h
      repeat' split at h
      all_goals try exact Except.noConfusion h
      · cases h
        rename_i nf hnm
        obtain ⟨hfw, hmode⟩ := parse_class_content_wf hm hnm
        exact StackWF_cons (hmode _ rfl) (StackWF_cons hfw hs)
      · cases h
        rename_i hnm
        obtain ⟨hfw, -⟩ := parse_class_content_wf hm hnm
        exact StackWF_cons hfw hs
      · obtain ⟨hmN, hrest⟩ := StackWF_of_cons hs
        refine ih _ _ _ _ _ _ _ ?_ hrest h
        exact FrameWF_push_class hmN (SymWF_classArgs (add_entries_wf hm))
      · obtain ⟨hmC, hrest⟩ := StackWF_of_cons hs
        refine ih _ _ _ _ _ _ _ ?_ hrest h
        exact FrameWF_push_class hmC (SymWF_classArgs (add_entries_wf hm))
      · cases h
        exact hs

theorem parse_line_wf {fn : String} {ln : Nat} {st : Settings} {mode : Mode}
    {stack : List Mode} {line : String} {ov : Option Bool} {cb : List String}
    {lvl : Nat} {res : List Mode × List String}
    (hm : ModeWF mode) (hs : StackWF stack)
    (h : parse_line fn ln st mode stack line ov cb lvl = .ok res) :
    StackWF res.1 :=
  parse_line_go_wf fn ln st _ mode stack line ov cb lvl res hm hs h

theorem applyPending_wf {p : Pending} {f : ClassFrame}
    (hp : PendingWF p) (hf : FrameWF f) : FrameWF (applyPending p f) := by
  cases p with
  | nothing => exact hf
  | cls s => exact FrameWF_push_class hf hp
  | enm s => exact FrameWF_push_enum hf hp

theorem closeAll_wf (fn : String) :
    ∀ (stack : List Mode) (p : Pending) (cb : List String)
      (d : DocumentationData),
      PendingWF p → StackWF stack →
      closeAll fn p cb stack = .ok d → EntriesWF d.entries := by
  intro stack
  induction stack with
  | nil =>
    intro p cb d hp hs h
    cases p <;> exact Except.noConfusion h
  | cons top rest ih =>
    intro p cb d hp hs h
    obtain ⟨hm, hrest⟩ := StackWF_of_cons hs
    cases top with
    | Enum name ef =>
      cases p with
      | nothing =>
        refine ih _ _ _ ?_ hrest h
        exact SymWF_enumArgs _ _ _
      | cls s => exact Except.noConfusion h
      | enm s => exact Except.noConfusion h
    | Class name oi i frame text =>
      refine ih _ _ _ ?_ hrest h
      exact SymWF_classArgs (add_entries_wf (applyPending_wf hp hm))
    | Normal frame =>
      cases h
      exact add_entries_wf (applyPending_wf hp hm)

theorem parseLoop_wf (fn : String) (st : Settings) :
    ∀ (fuel : Nat) (lines : List String) (count : Nat) (stack : List Mode)
      (parens : List Char) (ov : Option Bool) (cb : List String)
      (d : DocumentationData),
      StackWF stack →
      parseLoop fn st fuel lines count stack parens ov cb = .ok d →
      EntriesWF d.entries := by
  intro fuel
  induction fuel with
  | zero =>
    intro lines count stack parens ov cb d hs h
    exact Except.noConfusion h
  | succ n ih =>
    intro lines count stack parens ov cb d hs h
    cases lines with
    | nil => exact closeAll_wf fn stack .nothing cb d trivial hs h
    | cons l rest =>
      simp only [parseLoop] at h
      repeat' split at h
      all_goals try exact Except.noConfusion h
      · exact ih _ _ _ _ _ _ _ hs h
      · rename_i hpl
        obtain ⟨hm, hsr⟩ := StackWF_of_cons hs
        exact ih _ _ _ _ _ _ _ (parse_line_wf hm hsr hpl) h

/-- C6 also needs: `parse_file` sets up the loop with a single well-formed
root frame. -/
theorem parse_file_wf {fn : String} {lines : List String} {st : Settings}
    {d : DocumentationData} (h : parse_file fn lines st = .ok d) :
    EntriesWF d.entries :=
  parseLoop_wf fn st _ lines 0 [Mode.Normal {}] [] none [] d
    (StackWF_cons FrameWF_empty (fun _ hx => absurd hx (List.not_mem_nil _))) h

/-! ### Claim theorems. -/

/-- C1: evaluation of the scanner at the failing inputs. The claim says
string-mode ends at the matching closing quote and that brackets between a
quote pair are not pushed; the code sets the string flag without ever
clearing it and keeps bracket bookkeeping active inside strings. Conjuncts:
a target is found on a plain line; a target after a closed `"a"` literal is
NOT found (string-mode never ends); a `(` inside a quote pair IS pushed onto
the bracket stack; a trailing `#` after a string literal is never found. -/
theorem C1_find_string_mode :
    find "f" 1 "ab x" (.charM 'x') [] = .ok (some 3, [])
    ∧ find "f" 1 "\"a\"x" (.charM 'x') [] = .ok (none, [])
    ∧ find "f" 1 "\"(\"" (.charM '#') [] = .ok (none, ['('])
    ∧ find "f" 1 "\"a\" # c" (.charM '#') [] = .ok (none, []) :=
  ⟨rfl, rfl, rfl, rfl⟩

/-- C2: evaluation of the function-signature grammar at the claim's inputs.
`func foo(a, b: int, c = 1) -> bool:` loses the argument `c = 1` (after the
comma following `b: int` the scan side stays `Type`, so `c` is appended to a
`None` type and the argument is never flushed); the `_init` super-argument
example parses as the claim says. -/
theorem C2_parse_function_drops_argument :
    parse_file "f" ["func foo(a, b: int, c = 1) -> bool:"] ⟨true⟩ =
      .ok ⟨"f", [.mk .FUNC [.mk "foo"
        (some (.FunctionArgs ⟨[⟨"a", none, none⟩, ⟨"b", some "int", none⟩],
          none, some "bool"⟩)) []]]⟩
    ∧ parse_file "f" ["func _init(x).(y):"] ⟨true⟩ =
      .ok ⟨"f", [.mk .FUNC [.mk "_init"
        (some (.FunctionArgs ⟨[⟨"x", none, none⟩],
          some [⟨"y", none, none⟩], none⟩)) []]]⟩ :=
  ⟨rfl, rfl⟩

/-- C3: evaluation of the visibility rule at the failing inputs. The claim
says a pending `[Show]` force-includes an underscore name; in the code the
include condition is `(not underscore or show_prefixed) and
override.unwrap_or(true)`, so `[Show]` never overrides the name rule, and
the `class` branch ignores the override entirely. Conjuncts: `[Show]` fails
to reveal `signal _x` with show_prefixed off; `[Hide]` fails to suppress a
class; `[Hide]` does suppress a signal. -/
theorem C3_show_directive_ineffective :
    parse_file "f" ["# [Show]", "signal _x"] ⟨false⟩ = .ok ⟨"f", []⟩
    ∧ parse_file "f" ["# [Hide]", "class A:", "\tsignal s"] ⟨false⟩ =
      .ok ⟨"f", [.mk .CLASS [.mk "A"
        (some (.ClassArgs [.mk .SIGNAL [.mk "s" none []]])) ["[Hide]"]]]⟩
    ∧ parse_file "f" ["# [Hide]", "signal s"] ⟨false⟩ = .ok ⟨"f", []⟩ :=
  ⟨rfl, rfl, rfl⟩

/-- C4: evaluation of enum constant resolution. A `const FOO = 3` in the
same scope as a single-logical-line `enum E { A = FOO }` is NOT found (the
current scope's frame is popped off the stack before dispatch, and
`get_constant` searches only the remaining stack), so the parse fails;
when the enum body spans several logical lines the enclosing frame is back
on the stack and `A` resolves to 3; an undeclared name fails as the claim
says. -/
theorem C4_same_scope_constant_unreachable :
    parse_file "f" ["const FOO = 3", "enum E \x7b A = FOO \x7d"] ⟨false⟩ =
      .error "FOO is not a valid enum value"
    ∧ parse_file "f" ["const FOO = 3", "enum E \x7b", "A = FOO", "\x7d"] ⟨false⟩ =
      .ok ⟨"f", [.mk .ENUM [.mk "E" (some (.EnumArgs [⟨"A", 3, []⟩])) []],
        .mk .CONST [.mk "FOO" (some (.VariableArgs ⟨none, some "3", none, none⟩)) []]]⟩
    ∧ parse_file "f" ["enum E \x7b A = BAR \x7d"] ⟨false⟩ =
      .error "BAR is not a valid enum value" :=
  ⟨rfl, rfl, rfl⟩

/-- C5 counterexample: the claim says parse_file fails with an
unexpected-end-of-input error when the source ends while any open bracket
(`(`, `[` or `{`) is pending; but a file ending with an unmatched `[`
parses successfully — only `(` is checked by the continuation loop. -/
theorem C5_counterexample :
    parse_file "f" ["var x = [1"] ⟨false⟩ =
      .ok ⟨"f", [.mk .VAR [.mk "x"
        (some (.VariableArgs ⟨none, some "[1", none, none⟩)) []]]⟩ := rfl

/-- C5 amended: implicit continuation happens exactly while an unmatched
`(` remains on the shared bracket stack; end of input during a backslash
continuation or with `(` pending is an unexpected-EOF error; an unmatched
`[` (or `{`) neither continues the line nor errors at EOF. Conjuncts: a
line with an open `(` joins the next physical line; EOF with `(` pending
fails; EOF right after a backslash fails; EOF with `[` pending succeeds. -/
theorem C5_continuation_only_parens :
    parse_file "f" ["var x = (1,", "2)"] ⟨false⟩ =
      .ok ⟨"f", [.mk .VAR [.mk "x"
        (some (.VariableArgs ⟨none, some "(1,2)", none, none⟩)) []]]⟩
    ∧ parse_file "f" ["var x = (1,"] ⟨false⟩ =
      .error "Unexpected eof, mismatched parentheses"
    ∧ parse_file "f" ["var x = \\"] ⟨false⟩ =
      .error "Unexpected eof, expected newline after \\"
    ∧ parse_file "f" ["var y = [1,"] ⟨false⟩ =
      .ok ⟨"f", [.mk .VAR [.mk "y"
        (some (.VariableArgs ⟨none, some "[1,", none, none⟩)) []]]⟩ :=
  ⟨rfl, rfl, rfl, rfl⟩

/-- C6: fixed entry order. Conjunct 1: for every scope frame, `add_entries`
emits the entry `⟨k, frame's k-list⟩` exactly when that list is non-empty
(so each non-empty kind gets exactly one entry carrying the accumulated
symbols in accumulation order, and empty kinds are omitted). Conjunct 2:
the kinds of `add_entries` always form a subsequence of the fixed order
Class, Enum, Signal, Export, Constant, Function, Variable. Conjunct 3: for
every input that parses successfully, every scope's emitted entry list —
the root list and, recursively, the list inside every class symbol — has
kinds forming a duplicate-free subsequence of that fixed order with no
empty entry (`EntriesWF`). Conjunct 4: a concrete parse with two variables
and a signal shows the fixed kind order (Signal before Variable) and the
symbols of one entry in source declaration order. -/
theorem C6_fixed_entry_order :
    (∀ (f : ClassFrame) (k : EntryType),
      (frameList f k ≠ [] → DocumentationEntry.mk k (frameList f k) ∈ add_entries f)
      ∧ (frameList f k = [] → ∀ e ∈ add_entries f, e.entry_type ≠ k))
    ∧ (∀ f : ClassFrame,
        ((add_entries f).map DocumentationEntry.entry_type).Sublist kindOrder)
    ∧ (∀ (fn : String) (lines : List String) (st : Settings)
        (d : DocumentationData),
        parse_file fn lines st = .ok d → EntriesWF d.entries)
    ∧ parse_file "f" ["var a = 1", "var b = 2", "signal s"] ⟨false⟩ =
        .ok ⟨"f", [.mk .SIGNAL [.mk "s" none []],
          .mk .VAR [.mk "a" (some (.VariableArgs ⟨none, some "1", none, none⟩)) [],
            .mk "b" (some (.VariableArgs ⟨none, some "2", none, none⟩)) []]]⟩ := by
  refine ⟨?_, add_entries_kinds_sublist, ?_, rfl⟩
  · intro f k
    constructor
    · intro hne
      have hne' : (frameList f k).isEmpty = false := by
        cases hfk : frameList f k with
        | nil => exact absurd hfk hne
        | cons a l => rfl
      cases k <;> simp only [frameList] at hne' ⊢ <;>
        simp [add_entries, hne']
    · intro hemp e he hk
      obtain ⟨k2, rfl, hne⟩ := mem_add_entries he
      simp only [DocumentationEntry.entry_type] at hk
      subst hk
      exact hne hemp
  · intro fn lines st d h
    exact parse_file_wf h

/-- C6 witness: conjunct 1 applied at a concrete frame holding one
variable symbol, and conjunct 3 applied at a concrete successful parse. -/
theorem C6_fixed_entry_order_witness :
    (DocumentationEntry.mk .VAR [Symbol.mk "x" none []] ∈
      add_entries ⟨[], [], [], [Symbol.mk "x" none []], [], [], []⟩)
    ∧ EntriesWF [DocumentationEntry.mk .VAR
        [Symbol.mk "x" (some (.VariableArgs ⟨none, some "1", none, none⟩)) []]] :=
  ⟨(C6_fixed_entry_order.1 ⟨[], [], [], [Symbol.mk "x" none []], [], [], []⟩ .VAR).1
      (List.cons_ne_nil _ _),
   C6_fixed_entry_order.2.2.1 "f" ["var x = 1"] ⟨false⟩
     ⟨"f", [DocumentationEntry.mk .VAR
       [Symbol.mk "x" (some (.VariableArgs ⟨none, some "1", none, none⟩)) []]]⟩ rfl⟩

/-- C7: enum auto-increment. General conjuncts, about one step of the
element loop: a whitespace-only element is skipped, changing neither the
frame (no value slot consumed) nor the buffer; an element without an
explicit `=` value receives the running `last_value` (the previous
element's value plus 1; 0 initially, since `EnumFrame::default` starts
`last_value` at 0), and bumps `last_value` to that value plus 1. Concrete
conjuncts: the claim's two example bodies evaluate to values 0,1,2 and
A=5, B=6, C=2, D=3. -/
theorem C7_enum_auto_increment :
    (∀ (s : Settings) (stack : List Mode) (ov : Option Bool) (ef : EnumFrame)
       (cb rest : List String) (v : String),
       trimStr v = "" →
       parseEnumGo s stack ov (v :: rest) ef cb = parseEnumGo s stack ov rest ef cb)
    ∧ (∀ (s : Settings) (stack : List Mode) (ov : Option Bool) (ef : EnumFrame)
       (cb rest : List String) (v : String),
       v.data.contains '=' = false → ¬ trimStr v = "" →
       parseEnumGo s stack ov (v :: rest) ef cb =
         if (!(strStartsWith (trimStr v) "_") || s.show_prefixed) && ov.getD true then
           parseEnumGo s stack ov rest
             ⟨ef.last_value + 1, ef.values ++ [⟨trimStr v, ef.last_value, cb⟩]⟩ []
         else parseEnumGo s stack ov rest ⟨ef.last_value + 1, ef.values⟩ cb)
    ∧ parse_enum ⟨false⟩ [] " A, B, C " {} none [] =
        .ok (⟨3, [⟨"A", 0, []⟩, ⟨"B", 1, []⟩, ⟨"C", 2, []⟩]⟩, [])
    ∧ parse_enum ⟨false⟩ [] " A = 5, B, C = 2, D " {} none [] =
        .ok (⟨4, [⟨"A", 5, []⟩, ⟨"B", 6, []⟩, ⟨"C", 2, []⟩, ⟨"D", 3, []⟩]⟩, []) := by
  refine ⟨?_, ?_, rfl, rfl⟩
  · intro s stack ov ef cb rest v hv
    have hsplit : splitStr '=' v = [v] := by
      unfold splitStr
      rw [splitOnChar_of_no_sep '=' v.data (no_eq_of_trim_empty v hv)]
      simp [string_eta]
    rw [parseEnumGo, hsplit]
    simp [hv]
  · intro s stack ov ef cb rest v hnc hne
    have hsplit : splitStr '=' v = [v] := by
      unfold splitStr
      rw [splitOnChar_of_no_sep '=' v.data hnc]
      simp [string_eta]
    rw [parseEnumGo, hsplit]
    simp [hne]

/-- C7 witness: the two general conjuncts applied at concrete inputs: a
whitespace element before an `A` element is skipped, and a `B` element
without a value takes the running `last_value` 7. -/
theorem C7_enum_auto_increment_witness :
    (parseEnumGo ⟨false⟩ [] none [" ", "A"] {} [] =
      parseEnumGo ⟨false⟩ [] none ["A"] {} [])
    ∧ (parseEnumGo ⟨false⟩ [] none ["B", "C"] ⟨7, []⟩ [] =
       if (!(strStartsWith (trimStr "B") "_") || (⟨false⟩ : Settings).show_prefixed) &&
           (none : Option Bool).getD true then
         parseEnumGo ⟨false⟩ [] none ["C"]
           ⟨(7 : Int) + 1, [] ++ [⟨trimStr "B", 7, []⟩]⟩ []
       else parseEnumGo ⟨false⟩ [] none ["C"] ⟨(7 : Int) + 1, []⟩ []) :=
  ⟨C7_enum_auto_increment.1 ⟨false⟩ [] none {} [] ["A"] " " (by decide),
   C7_enum_auto_increment.2.1 ⟨false⟩ [] none ⟨7, []⟩ [] ["C"] "B"
     (by decide) (by decide)⟩

/-- C8: the assignment grammar at the claim's inputs: the full
`var x: int = 1 setget set_x, get_x` declaration, the bare `var y = 2`,
and the three setget-clause shapes (empty first slot, single identifier,
identifier with trailing comma, two identifiers). -/
theorem C8_assignment_grammar :
    parse_file "f" ["var x: int = 1 setget set_x, get_x"] ⟨false⟩ =
      .ok ⟨"f", [.mk .VAR [.mk "x"
        (some (.VariableArgs ⟨some "int", some "1", some "set_x", some "get_x"⟩)) []]]⟩
    ∧ parse_file "f" ["var y = 2"] ⟨false⟩ =
      .ok ⟨"f", [.mk .VAR [.mk "y"
        (some (.VariableArgs ⟨none, some "2", none, none⟩)) []]]⟩
    ∧ parse_file "f" ["var a = 1 setget ,g"] ⟨false⟩ =
      .ok ⟨"f", [.mk .VAR [.mk "a"
        (some (.VariableArgs ⟨none, some "1", none, some "g"⟩)) []]]⟩
    ∧ parse_file "f" ["var b = 1 setget s"] ⟨false⟩ =
      .ok ⟨"f", [.mk .VAR [.mk "b"
        (some (.VariableArgs ⟨none, some "1", some "s", none⟩)) []]]⟩
    ∧ parse_file "f" ["var c = 1 setget s,"] ⟨false⟩ =
      .ok ⟨"f", [.mk .VAR [.mk "c"
        (some (.VariableArgs ⟨none, some "1", some "s", none⟩)) []]]⟩
    ∧ parse_file "f" ["var d = 1 setget s,g"] ⟨false⟩ =
      .ok ⟨"f", [.mk .VAR [.mk "d"
        (some (.VariableArgs ⟨none, some "1", some "s", some "g"⟩)) []]]⟩ :=
  ⟨rfl, rfl, rfl, rfl, rfl, rfl⟩

/-- C9 counterexample: the claim says every non-`warning-ignore:` trailing
comment appears among the comment lines of the next emitted symbol; but a
comment trailing a non-declaration statement line is cleared with the
buffer after that line is parsed: here `doc` appears on no symbol (`x` has
empty comment text). -/
theorem C9_counterexample :
    parse_file "f" ["foo() # doc", "var x = 1"] ⟨false⟩ =
      .ok ⟨"f", [.mk .VAR [.mk "x"
        (some (.VariableArgs ⟨none, some "1", none, none⟩)) []]]⟩ := rfl

/-- C9 amended: `warning-ignore:` comments are excluded from the buffer and
other trailing comments (the literal `[Show]`/`[Hide]` texts included) are
pushed; a buffered comment reaches the next emitted symbol when no
intervening non-blank statement line clears the buffer first. Conjuncts: a
`warning-ignore:` comment is dropped while the next comment is kept; the
literal `[Show]` text is kept as a comment line; a declaration's own
trailing comment is attached to its symbol. -/
theorem C9_comment_buffer :
    parse_file "f" ["# warning-ignore:foo", "# keep", "var x = 1"] ⟨false⟩ =
      .ok ⟨"f", [.mk .VAR [.mk "x"
        (some (.VariableArgs ⟨none, some "1", none, none⟩)) ["keep"]]]⟩
    ∧ parse_file "f" ["# [Show]", "var x = 1"] ⟨false⟩ =
      .ok ⟨"f", [.mk .VAR [.mk "x"
        (some (.VariableArgs ⟨none, some "1", none, none⟩)) ["[Show]"]]]⟩
    ∧ parse_file "f" ["var x = 1 # doc"] ⟨false⟩ =
      .ok ⟨"f", [.mk .VAR [.mk "x"
        (some (.VariableArgs ⟨none, some "1", none, none⟩)) ["doc"]]]⟩ :=
  ⟨rfl, rfl, rfl⟩

/-- C10 counterexample: the claim says a hidden class's indented members
are attributed to the parent scope; but with show_prefixed off the body
line `\tvar x = 1` of the hidden `class _Foo:` keeps its leading tab in the
root scope, matches no declaration keyword, and is discarded: the output
has no entries at all, not a root variable `x`. -/
theorem C10_counterexample :
    parse_file "f" ["class _Foo:", "\tvar x = 1"] ⟨false⟩ = .ok ⟨"f", []⟩ := rfl

/-- C10 amended: a hidden `class _name:` header opens no scope, produces no
symbol and establishes no indentation requirement; its tab-indented body
lines are offered to the enclosing scope but match no keyword and are
silently discarded. Conjuncts: hidden class, indented body discarded
(duplicated from the counterexample input with a second member to show all
body lines are dropped); the same input with a visible class keeps the
member inside the class; after a hidden header a root-indentation line is
parsed as root content with no indented-block error; a visible class header
followed by a root-indentation line does raise that error. -/
theorem C10_hidden_class :
    parse_file "f" ["class _Foo:", "\tvar x = 1", "\tsignal s"] ⟨false⟩ =
      .ok ⟨"f", []⟩
    ∧ parse_file "f" ["class Foo:", "\tvar x = 1"] ⟨false⟩ =
      .ok ⟨"f", [.mk .CLASS [.mk "Foo"
        (some (.ClassArgs [.mk .VAR [.mk "x"
          (some (.VariableArgs ⟨none, some "1", none, none⟩)) []]])) []]]⟩
    ∧ parse_file "f" ["class _Foo:", "var y = 2"] ⟨false⟩ =
      .ok ⟨"f", [.mk .VAR [.mk "y"
        (some (.VariableArgs ⟨none, some "2", none, none⟩)) []]]⟩
    ∧ parse_file "f" ["class Foo:", "var y = 2"] ⟨false⟩ =
      .error "Failed to parse f, line 2: Indented block expected" :=
  ⟨rfl, rfl, rfl, rfl⟩

end Godotdoc
